import Mathlib

/-!
# Verification of the dk_shell parser and pipeline executor

Shallow embedding of the command-line parser (Shell::parse_input in
src/shell.cpp, and the free function parse_input in src/tsh.cpp), the
Process token accumulator (src/process.cpp), the pipeline executor
(Shell::run_commands), the remote-storage builtins (Shell::handleCput,
handleCget, handleCrm, handleCls) and the directory-change builtin
(Shell::handle_cd).

Lines are modelled as List Char; tokens as List Char.  OS effects
(pipe creation, fork, waitpid, socket I/O, chdir) are modelled by
explicit oracles and an event trace.
-/

namespace DkShell

/-- One command descriptor (class Process, include/process.h):
a fixed array of 25 token slots (modelled as the list of stored
tokens, which add_token caps at 25), the two pipe flags and the
token count tok_index (equal to tokens.length here). -/
structure Proc where
  tokens : List (List Char)
  pipe_in : Bool
  pipe_out : Bool
deriving Repr, DecidableEq

/-- Process::add_token (src/process.cpp): stores the token only while
tok_index < 25, silently dropping later tokens. -/
def add_token (p : Proc) (tok : List Char) : Proc :=
  if p.tokens.length < 25 then { p with tokens := p.tokens ++ [tok] } else p

/-- The capacity of the Process::cmdTokens array: char *cmdTokens[25]. -/
def cmdTokensCapacity : Nat := 25

/-- The index at which flush_process stores the trailing null entry:
currProcess->cmdTokens[currProcess->tok_index] = nullptr. -/
def nullStoreIndex (p : Proc) : Nat := p.tokens.length

/-- Character classes of the parser's switch statement
(Shell::parse_input): whitespace, '|', ';', anything else. -/
inductive CharClass where
  | ws
  | pipe
  | semi
  | other
deriving Repr, DecidableEq

/-- The switch on the current character in Shell::parse_input. -/
def classify (c : Char) : CharClass :=
  if c = ' ' ∨ c = '\t' ∨ c = '\n' ∨ c = '\r' then .ws
  else if c = '|' then .pipe
  else if c = ';' then .semi
  else .other

/-- Parser state: the descriptor being accumulated (currProcess), the
in-progress token (tok_start, with the characters scanned so far), and
the sealed descriptors (process_list). -/
structure ParseState where
  curr : Proc
  tok : Option (List Char)
  acc : List Proc
deriving Repr, DecidableEq

/-- The had_tokens test of the '|' and ';' cases:
(currProcess->tok_index > 0) || (tok_start != nullptr). -/
def hadTokens (s : ParseState) : Bool :=
  decide (0 < s.curr.tokens.length) || s.tok.isSome

/-- flush_cmd: if a token is open, terminate it and append it to the
current descriptor. -/
def flush_cmd (s : ParseState) : ParseState :=
  match s.tok with
  | none => s
  | some t => { s with curr := add_token s.curr t, tok := none }

/-- flush_process: if the current descriptor holds at least one token,
store the trailing null entry and seal the descriptor into the list;
otherwise discard it.  Either way the parse goes on with a fresh
flagless descriptor. -/
def flush_process (s : ParseState) : ParseState :=
  if 0 < s.curr.tokens.length then
    { curr := ⟨[], false, false⟩, tok := s.tok, acc := s.acc ++ [s.curr] }
  else
    { curr := ⟨[], false, false⟩, tok := s.tok, acc := s.acc }

/-- One iteration of the character loop of Shell::parse_input. -/
def step (s : ParseState) (c : Char) : ParseState :=
  match classify c with
  | .ws => flush_cmd s
  | .pipe =>
    let had := hadTokens s
    let s1 := flush_cmd s
    if had then
      let s2 := { s1 with curr := { s1.curr with pipe_out := true } }
      let s3 := flush_process s2
      { s3 with curr := { s3.curr with pipe_in := true } }
    else s1
  | .semi =>
    let had := hadTokens s
    let s1 := flush_cmd s
    if had then
      flush_process s1
    else
      { s1 with curr := ⟨[], false, false⟩ }
  | .other =>
    match s.tok with
    | none => { s with tok := some [c] }
    | some t => { s with tok := some (t ++ [c]) }

/-- The character loop of Shell::parse_input. -/
def parse_loop : List Char → ParseState → ParseState
  | [], s => s
  | c :: cs, s => parse_loop cs (step s c)

/-- End of input: close any open token, then flush_process(false). -/
def finish (s : ParseState) : List Proc :=
  let s1 :=
    match s.tok with
    | none => s
    | some t => { s with curr := add_token s.curr t, tok := none }
  (flush_process s1).acc

/-- The post-pass of Shell::parse_input: look at the last sealed
descriptor; if it has pipe_in set and no tokens, remove it (the
subsequent pipe_out write then lands on the removed object and does
not affect the list); otherwise clear a set pipe_out flag on it. -/
def postPass (l : List Proc) : List Proc :=
  match l.getLast? with
  | none => l
  | some last =>
    if last.pipe_in = true ∧ last.tokens.length = 0 then
      l.dropLast
    else if last.pipe_out = true then
      l.dropLast ++ [{ last with pipe_out := false }]
    else l

/-- The initial parser state: currProcess = new Process(false, false),
tok_start = nullptr, empty process_list. -/
def initState : ParseState := ⟨⟨[], false, false⟩, none, []⟩

/-- Shell::parse_input (src/shell.cpp, lines 347-425). -/
def parse_input (cmd : List Char) : List Proc :=
  postPass (finish (parse_loop cmd initState))

/-- Whitespace characters, as recognized by the parser's switch. -/
def isWsChar (c : Char) : Bool :=
  decide (c = ' ') || decide (c = '\t') || decide (c = '\n') || decide (c = '\r')

/-- Separator characters: the two command separators ';' and '|'. -/
def isSepChar (c : Char) : Bool := decide (c = ';') || decide (c = '|')

/-- Split a line into the raw segments delimited by ';' and '|'
(the current segment's characters are carried in cur). -/
def segmentsAux : List Char → List Char → List (List Char)
  | [], cur => [cur]
  | c :: cs, cur =>
    if isSepChar c then cur :: segmentsAux cs [] else segmentsAux cs (cur ++ [c])

/-- The segments of a line, splitting on ';' and '|' jointly. -/
def segments (cmd : List Char) : List (List Char) := segmentsAux cmd []

/-- A segment is a non-empty command segment when it contains at least
one non-whitespace character. -/
def isContentSeg (seg : List Char) : Bool := seg.any fun c => !(isWsChar c)

/-- The number of non-empty command segments of a line. -/
def countSegments (cmd : List Char) : Nat :=
  (segments cmd).countP isContentSeg

/-- Recursive segment counter: b records whether the segment scanned
so far already has a non-whitespace character. -/
def countSegs : List Char → Bool → Nat
  | [], b => if b then 1 else 0
  | c :: cs, b =>
    if isSepChar c then (if b then 1 else 0) + countSegs cs false
    else if isWsChar c then countSegs cs b
    else countSegs cs true

/-- The adjacency relation of the spec: a descriptor that reads from
its predecessor has a predecessor that writes to it. -/
def pairOK (a b : Proc) : Prop := b.pipe_in = true → a.pipe_out = true

/-- Invariant carried along the parse: the sealed list is pairwise
consistent, a pending pipe_in on currProcess is matched by pipe_out on
the last sealed descriptor, and currProcess never has pipe_out set. -/
def ChainInv (s : ParseState) : Prop :=
  List.Chain' pairOK s.acc ∧
  (s.curr.pipe_in = true → s.acc.getLast?.map Proc.pipe_out = some true) ∧
  s.curr.pipe_out = false

/-!
Uncapped reference parser for the token cap claim: identical to the
embedding of Shell::parse_input except that token accumulation has no
25-token cap.  The capped parser is then exactly the uncapped one with
every descriptor's token list truncated to its first 25 entries.
-/

/-- Token accumulation with no capacity bound. -/
def add_tokenU (p : Proc) (t : List Char) : Proc :=
  { p with tokens := p.tokens ++ [t] }

/-- flush_cmd of the uncapped reference parser. -/
def flush_cmdU (s : ParseState) : ParseState :=
  match s.tok with
  | none => s
  | some t => { s with curr := add_tokenU s.curr t, tok := none }

/-- One step of the uncapped reference parser. -/
def stepU (s : ParseState) (c : Char) : ParseState :=
  match classify c with
  | .ws => flush_cmdU s
  | .pipe =>
    let had := hadTokens s
    let s1 := flush_cmdU s
    if had then
      let s2 := { s1 with curr := { s1.curr with pipe_out := true } }
      let s3 := flush_process s2
      { s3 with curr := { s3.curr with pipe_in := true } }
    else s1
  | .semi =>
    let had := hadTokens s
    let s1 := flush_cmdU s
    if had then
      flush_process s1
    else
      { s1 with curr := ⟨[], false, false⟩ }
  | .other =>
    match s.tok with
    | none => { s with tok := some [c] }
    | some t => { s with tok := some (t ++ [c]) }

/-- Character loop of the uncapped reference parser. -/
def parse_loopU : List Char → ParseState → ParseState
  | [], s => s
  | c :: cs, s => parse_loopU cs (stepU s c)

/-- End of input for the uncapped reference parser. -/
def finishU (s : ParseState) : List Proc :=
  let s1 :=
    match s.tok with
    | none => s
    | some t => { s with curr := add_tokenU s.curr t, tok := none }
  (flush_process s1).acc

/-- The uncapped reference parser. -/
def parse_inputU (cmd : List Char) : List Proc :=
  postPass (finishU (parse_loopU cmd initState))

/-- Truncate a descriptor's token list to the first 25 entries. -/
def truncP (p : Proc) : Proc := { p with tokens := p.tokens.take 25 }

/-- Truncate every descriptor of a parser state. -/
def truncState (u : ParseState) : ParseState :=
  ⟨truncP u.curr, u.tok, u.acc.map truncP⟩

/-!
Embedding of the free function parse_input of src/tsh.cpp
(lines 170-246), which duplicates the member function: same character
loop, same flush helpers, same post-pass (tsh.cpp omits the redundant
null check on last before clearing pipe_out, which cannot fail).
-/

/-- flush_cmd of the tsh.cpp parser. -/
def flush_cmdT (s : ParseState) : ParseState :=
  match s.tok with
  | none => s
  | some t => { s with curr := add_token s.curr t, tok := none }

/-- flush_process of the tsh.cpp parser. -/
def flush_processT (s : ParseState) : ParseState :=
  if 0 < s.curr.tokens.length then
    { curr := ⟨[], false, false⟩, tok := s.tok, acc := s.acc ++ [s.curr] }
  else
    { curr := ⟨[], false, false⟩, tok := s.tok, acc := s.acc }

/-- One iteration of the character loop of tsh.cpp parse_input. -/
def stepT (s : ParseState) (c : Char) : ParseState :=
  match classify c with
  | .ws => flush_cmdT s
  | .pipe =>
    let had := hadTokens s
    let s1 := flush_cmdT s
    if had then
      let s2 := { s1 with curr := { s1.curr with pipe_out := true } }
      let s3 := flush_processT s2
      { s3 with curr := { s3.curr with pipe_in := true } }
    else s1
  | .semi =>
    let had := hadTokens s
    let s1 := flush_cmdT s
    if had then
      flush_processT s1
    else
      { s1 with curr := ⟨[], false, false⟩ }
  | .other =>
    match s.tok with
    | none => { s with tok := some [c] }
    | some t => { s with tok := some (t ++ [c]) }

/-- The character loop of tsh.cpp parse_input. -/
def parse_loopT : List Char → ParseState → ParseState
  | [], s => s
  | c :: cs, s => parse_loopT cs (stepT s c)

/-- End of input in tsh.cpp parse_input. -/
def finishT (s : ParseState) : List Proc :=
  let s1 :=
    match s.tok with
    | none => s
    | some t => { s with curr := add_token s.curr t, tok := none }
  (flush_processT s1).acc

/-- The post-pass of tsh.cpp parse_input. -/
def postPassT (l : List Proc) : List Proc :=
  match l.getLast? with
  | none => l
  | some last =>
    if last.pipe_in = true ∧ last.tokens.length = 0 then
      l.dropLast
    else if last.pipe_out = true then
      l.dropLast ++ [{ last with pipe_out := false }]
    else l

/-- parse_input of src/tsh.cpp. -/
def parse_inputT (cmd : List Char) : List Proc :=
  postPassT (finishT (parse_loopT cmd initState))

/-!
Embedding of the pipeline executor Shell::run_commands
(src/shell.cpp, lines 445-542).  OS effects are modelled by two
oracles (pipeOk for the pipe(2) calls, forkOk for the fork(2) calls,
both indexed by call count) and an event trace; spawned children are
identified by the fork counter.  Child-side behavior (dup2/execvp)
happens in the child process and is outside the interpreter state.
-/

/-- The quit verb recognized by Shell::isQuit. -/
def quitVerb : List Char := ['q', 'u', 'i', 't']

/-- The directory-change verb recognized by Shell::isCd. -/
def cdVerb : List Char := ['c', 'd']

/-- The builtin verbs recognized by Shell::isBuiltin. -/
def builtinVerbs : List (List Char) :=
  [['c', 'p', 'u', 't'], ['c', 'g', 'e', 't'], ['c', 'r', 'm'],
   ['c', 'l', 's'], ['c', 'c', 'o', 'n'], ['c', 'd', 'i', 's', 'c']]

/-- Shell::isQuit: the first token is "quit". -/
def isQuitP (p : Proc) : Bool := p.tokens.head? == some quitVerb

/-- Shell::isCd: the first token is "cd". -/
def isCdP (p : Proc) : Bool := p.tokens.head? == some cdVerb

/-- Shell::isBuiltin: the first token is one of the remote-storage
verbs. -/
def isBuiltinP (p : Proc) : Bool :=
  match p.tokens.head? with
  | none => false
  | some t => builtinVerbs.contains t

/-- Observable actions of one run_commands call. -/
inductive Event where
  | cd
  | builtin
  | pipeCreated
  | pipeError
  | spawn (pid : Nat)
  | forkError
  | reap (pid : Nat)
deriving Repr, DecidableEq

/-- Parent-side interpreter state inside the run_commands loop:
the not-yet-reaped children (pids), whether a previous pipe read end
is still held (prev_read_end != -1), the pipe and fork call counters
(indices into the oracles; the fork counter doubles as the next
child id), and the trace so far. -/
structure RunState where
  pids : List Nat
  prevRead : Bool
  nPipe : Nat
  nFork : Nat
  events : List Event
deriving Repr, DecidableEq

/-- Pipe creation for a descriptor with writes_to_successor set (the
successful case): consumes one pipeOk oracle index and records the
created pipe. -/
def pipeStage (proc : Proc) (st : RunState) : RunState :=
  if proc.pipe_out then
    { st with
        nPipe := st.nPipe + 1
        events := st.events ++ [Event.pipeCreated] }
  else st

/-- Parent bookkeeping after a successful fork: record and remember
the child; at a segment boundary (no writes_to_successor) wait for
and reap every pending child; otherwise keep the new pipe's read end
for the next descriptor and defer reaping. -/
def spawnStage (proc : Proc) (st1 : RunState) : RunState :=
  let pid := st1.nFork
  let st2 : RunState :=
    { st1 with
        nFork := st1.nFork + 1
        events := st1.events ++ [Event.spawn pid]
        pids := st1.pids ++ [pid] }
  if proc.pipe_out then
    { st2 with prevRead := true }
  else
    { st2 with
        prevRead := false
        events := st2.events ++ st2.pids.map Event.reap
        pids := [] }

/-- The loop of Shell::run_commands over the descriptor list.
Returns the is_quit result and the full event trace (the final reap
loop included on the paths that reach it; the early return false
paths do not run the final reap loop). -/
def run_loop (pipeOk forkOk : Nat → Bool) :
    List Proc → RunState → Bool × List Event
  | [], st => (false, st.events ++ st.pids.map Event.reap)
  | proc :: rest, st =>
    if proc.tokens.head? = none then
      run_loop pipeOk forkOk rest st
    else if isQuitP proc then
      (true, st.events ++ st.pids.map Event.reap)
    else if isCdP proc then
      run_loop pipeOk forkOk rest { st with events := st.events ++ [Event.cd] }
    else if isBuiltinP proc then
      run_loop pipeOk forkOk rest { st with events := st.events ++ [Event.builtin] }
    else
      if proc.pipe_out ∧ pipeOk st.nPipe = false then
        (false, st.events ++ [Event.pipeError])
      else
        let st1 := pipeStage proc st
        if forkOk st1.nFork = false then
          (false, st1.events ++ [Event.forkError] ++ st1.pids.map Event.reap)
        else
          run_loop pipeOk forkOk rest (spawnStage proc st1)

/-- The initial executor state. -/
def initRun : RunState := ⟨[], false, 0, 0, []⟩

/-- Shell::run_commands. -/
def run_commands (procs : List Proc) (pipeOk forkOk : Nat → Bool) :
    Bool × List Event :=
  if procs.isEmpty then (false, [])
  else run_loop pipeOk forkOk procs initRun

/-- Every child spawned in the trace is also reaped in the trace. -/
def allSpawnedReapedP (evs : List Event) : Prop :=
  ∀ pid : Nat, Event.spawn pid ∈ evs → Event.reap pid ∈ evs

/-- Trace invariant of the loop: every spawned child is already
reaped or still pending in pids, and no failure event has been
emitted (a failure event ends the run at once). -/
def InvR (st : RunState) : Prop :=
  (∀ pid : Nat, Event.spawn pid ∈ st.events →
     Event.reap pid ∈ st.events ∨ pid ∈ st.pids) ∧
  Event.forkError ∉ st.events ∧
  Event.pipeError ∉ st.events

/-!
Embedding of the remote-storage builtins (Shell::handleCput,
handleCget, handleCrm, handleCls in src/shell.cpp) and of the
directory-change builtin Shell::handle_cd.  The remote session
handle server_fd is threaded explicitly; file and socket I/O are
oracles; each handler returns the handle plus an outcome tag naming
the return path taken.
-/

/-- Return paths of the remote-storage handlers. -/
inductive CloudOutcome where
  | usageError
  | notConnected
  | openError
  | sizeError
  | readError
  | sendError
  | sendDataError
  | noResponse
  | serverError
  | parseCrash
  | recvError
  | writeOpenError
  | done
deriving Repr, DecidableEq

/-- split_string (include/protocol.h): std::getline-based split; an
empty input yields no fields, and a trailing delimiter yields no
trailing empty field. -/
def split_stringAux (d : Char) : List Char → List Char → List (List Char)
  | [], cur => [cur]
  | c :: cs, cur =>
    if c = d then
      cur :: (match cs with
        | [] => []
        | _ => split_stringAux d cs [])
    else split_stringAux d cs (cur ++ [c])

/-- split_string (include/protocol.h). -/
def split_string (s : List Char) (d : Char) : List (List Char) :=
  match s with
  | [] => []
  | _ => split_stringAux d s []

/-- std::stoull on the digit strings this protocol produces: none
models the exception thrown when no digits are found. -/
def stoull? (s : List Char) : Option Nat :=
  let digits := s.takeWhile Char.isDigit
  if digits = [] then none
  else some (digits.foldl (fun n c => n * 10 + (c.toNat - 48)) 0)

/-- The RESP_OK protocol constant. -/
def respOK : List Char := ['O', 'K']

/-- Environment oracles of handleCput: local file open, size query,
file read, header send, data send, and the server's response line. -/
structure CputEnv where
  openOk : Bool
  sizeOk : Bool
  filesize : Nat
  readOk : Bool
  sendLineOk : Bool
  sendAllOk : Bool
  response : List Char
deriving Repr, DecidableEq

/-- Shell::handleCput (src/shell.cpp, lines 135-195). -/
def handleCput (fd : Int) (tokIndex : Nat) (env : CputEnv) :
    Int × CloudOutcome :=
  if tokIndex < 3 then (fd, .usageError)
  else if fd = -1 then (fd, .notConnected)
  else if env.openOk = false then (fd, .openError)
  else if env.sizeOk = false then (fd, .sizeError)
  else if 0 < env.filesize ∧ env.readOk = false then (fd, .readError)
  else if env.sendLineOk = false then (fd, .sendError)
  else if 0 < env.filesize ∧ env.sendAllOk = false then (fd, .sendDataError)
  else if env.response = [] then (fd, .noResponse)
  else (fd, .done)

/-- Environment oracles of handleCget. -/
structure CgetEnv where
  sendLineOk : Bool
  response : List Char
  recvOk : Bool
  writeOpenOk : Bool
deriving Repr, DecidableEq

/-- Shell::handleCget (src/shell.cpp, lines 261-309).  The parseCrash
outcome models the uncaught std::stoull exception on a malformed
byte-count field (parts[2] is read even when only 2 fields exist). -/
def handleCget (fd : Int) (tokIndex : Nat) (env : CgetEnv) :
    Int × CloudOutcome :=
  if tokIndex < 3 then (fd, .usageError)
  else if fd = -1 then (fd, .notConnected)
  else if env.sendLineOk = false then (fd, .sendError)
  else if env.response = [] then (fd, .noResponse)
  else
    let parts := split_string env.response '|'
    if parts.length < 2 ∨ parts.getD 0 [] ≠ respOK then (fd, .serverError)
    else
      match stoull? (parts.getD 2 []) with
      | none => (fd, .parseCrash)
      | some filesize =>
        if 0 < filesize ∧ env.recvOk = false then (fd, .recvError)
        else if env.writeOpenOk = false then (fd, .writeOpenError)
        else (fd, .done)

/-- Environment oracles of handleCrm. -/
structure CrmEnv where
  sendLineOk : Bool
  response : List Char
deriving Repr, DecidableEq

/-- Shell::handleCrm (src/shell.cpp, lines 235-259). -/
def handleCrm (fd : Int) (tokIndex : Nat) (env : CrmEnv) :
    Int × CloudOutcome :=
  if tokIndex < 2 then (fd, .usageError)
  else if fd = -1 then (fd, .notConnected)
  else if env.sendLineOk = false then (fd, .sendError)
  else if env.response = [] then (fd, .noResponse)
  else (fd, .done)

/-- Environment oracles of handleCls (the filename listing lines read
until the empty terminator line have no effect on the handle). -/
structure ClsEnv where
  sendLineOk : Bool
  response : List Char
deriving Repr, DecidableEq

/-- Shell::handleCls (src/shell.cpp, lines 311-339); takes no
argument-count check. -/
def handleCls (fd : Int) (env : ClsEnv) : Int × CloudOutcome :=
  if fd = -1 then (fd, .notConnected)
  else if env.sendLineOk = false then (fd, .sendError)
  else if env.response = [] then (fd, .noResponse)
  else
    let parts := split_string env.response '|'
    if parts.length < 2 ∨ parts.getD 0 [] ≠ respOK then (fd, .serverError)
    else (fd, .done)

/-- Shell::handle_cd (src/shell.cpp, lines 427-443): path is token 1
when present, else null; null or "~" selects $HOME; a missing HOME
reports an error and changes nothing; chdir failure (modelled by the
chdirOk oracle) reports an error and leaves the directory unchanged.
Returns the resulting working directory and whether an error was
reported. -/
def handle_cd (tokIndex : Nat) (arg1 : List Char) (home : Option (List Char))
    (chdirOk : List Char → Bool) (cwd : List Char) : List Char × Bool :=
  let path : Option (List Char) := if 1 < tokIndex then some arg1 else none
  match path with
  | none =>
    match home with
    | none => (cwd, true)
    | some h => if chdirOk h then (h, false) else (cwd, true)
  | some p =>
    if p = ['~'] then
      match home with
      | none => (cwd, true)
      | some h => if chdirOk h then (h, false) else (cwd, true)
    else
      if chdirOk p then (p, false) else (cwd, true)

end DkShell

namespace DkShell


-- Scenario sanity checks (spec §8).

example :
    parse_input ['l', 's'] = [⟨[['l', 's']], false, false⟩] := by decide

example :
    parse_input ['e', 'c', 'h', 'o', ' ', 'h', 'i', '|'] =
      [⟨[['e', 'c', 'h', 'o'], ['h', 'i']], false, false⟩] := by decide

example :
    parse_input ['a', '|', 'b'] =
      [⟨[['a']], false, true⟩, ⟨[['b']], true, false⟩] := by decide

example :
    parse_input ['l', 's', ';', ';', 'p', 'w', 'd', ';'] =
      [⟨[['l', 's']], false, false⟩, ⟨[['p', 'w', 'd']], false, false⟩] := by
  decide

example :
    parse_input ['a', '|', ';', 'b'] =
      [⟨[['a']], false, true⟩, ⟨[['b']], false, false⟩] := by decide

example : parse_input [' ', ';', '|', ';', ' '] = [] := by decide

-- Helper lemmas about the parser state machine.

lemma add_token_length_pos (p : Proc) (t : List Char) :
    0 < (add_token p t).tokens.length := by
  unfold add_token
  split
  · simp
  · omega

lemma add_token_tokens_ne_nil (p : Proc) (t : List Char) :
    (add_token p t).tokens.length ≠ 0 :=
  Nat.pos_iff_ne_zero.mp (add_token_length_pos p t)

lemma flush_cmd_of_none {s : ParseState} (h : s.tok = none) : flush_cmd s = s := by
  unfold flush_cmd
  rw [h]

lemma flush_cmd_of_some {s : ParseState} {t : List Char} (h : s.tok = some t) :
    flush_cmd s = { s with curr := add_token s.curr t, tok := none } := by
  unfold flush_cmd
  rw [h]

lemma flush_cmd_acc (s : ParseState) : (flush_cmd s).acc = s.acc := by
  cases htok : s.tok with
  | none => rw [flush_cmd_of_none htok]
  | some t => rw [flush_cmd_of_some htok]

lemma flush_cmd_tok (s : ParseState) : (flush_cmd s).tok = none := by
  cases htok : s.tok with
  | none => rw [flush_cmd_of_none htok, htok]
  | some t => rw [flush_cmd_of_some htok]

lemma hadTokens_flush_cmd (s : ParseState) :
    hadTokens (flush_cmd s) = hadTokens s := by
  cases htok : s.tok with
  | none => rw [flush_cmd_of_none htok]
  | some t =>
    rw [flush_cmd_of_some htok]
    unfold hadTokens
    simp [htok, add_token_length_pos s.curr t]

lemma flush_cmd_pos_of_had (s : ParseState) (h : hadTokens s = true) :
    0 < (flush_cmd s).curr.tokens.length := by
  cases htok : s.tok with
  | none =>
    rw [flush_cmd_of_none htok]
    unfold hadTokens at h
    rw [htok] at h
    simpa using h
  | some t =>
    rw [flush_cmd_of_some htok]
    exact add_token_length_pos s.curr t

lemma classify_cases (c : Char) :
    (classify c = .ws ∧ isWsChar c = true ∧ isSepChar c = false) ∨
    (classify c = .pipe ∧ isSepChar c = true) ∨
    (classify c = .semi ∧ isSepChar c = true) ∨
    (classify c = .other ∧ isWsChar c = false ∧ isSepChar c = false) := by
  by_cases hws : c = ' ' ∨ c = '\t' ∨ c = '\n' ∨ c = '\r'
  · left
    refine ⟨by unfold classify; simp [hws], ?_, ?_⟩
    · unfold isWsChar
      rcases hws with h | h | h | h <;> simp [h]
    · unfold isSepChar
      rcases hws with h | h | h | h <;> subst h <;> decide
  · by_cases hp : c = '|'
    · right; left
      subst hp
      exact ⟨by decide, by decide⟩
    · by_cases hsc : c = ';'
      · right; right; left
        subst hsc
        exact ⟨by decide, by decide⟩
      · right; right; right
        push_neg at hws
        obtain ⟨h1, h2, h3, h4⟩ := hws
        refine ⟨?_, ?_, ?_⟩
        · unfold classify
          simp [h1, h2, h3, h4, hp, hsc]
        · unfold isWsChar
          simp [h1, h2, h3, h4]
        · unfold isSepChar
          simp [hp, hsc]

-- Effect of one step on the sealed count and the had_tokens flag.

lemma step_ws_spec (s : ParseState) (c : Char) (h : classify c = .ws) :
    (step s c).acc = s.acc ∧ hadTokens (step s c) = hadTokens s := by
  unfold step
  rw [h]
  exact ⟨flush_cmd_acc s, hadTokens_flush_cmd s⟩

lemma step_pipe_had_eq (s : ParseState) (c : Char) (h : classify c = .pipe)
    (hh : hadTokens s = true) :
    step s c =
      { curr := ⟨[], true, false⟩, tok := (flush_cmd s).tok,
        acc := (flush_cmd s).acc ++ [{ (flush_cmd s).curr with pipe_out := true }] } := by
  have hpos := flush_cmd_pos_of_had s hh
  unfold step
  rw [h]
  simp only [hh, if_true]
  unfold flush_process
  simp only [hpos, if_pos]

lemma step_pipe_had_spec (s : ParseState) (c : Char) (h : classify c = .pipe)
    (hh : hadTokens s = true) :
    (step s c).acc = s.acc ++ [{ (flush_cmd s).curr with pipe_out := true }] ∧
    hadTokens (step s c) = false := by
  rw [step_pipe_had_eq s c h hh]
  refine ⟨by rw [flush_cmd_acc], ?_⟩
  unfold hadTokens
  simp [flush_cmd_tok s]

lemma step_pipe_nohad_spec (s : ParseState) (c : Char) (h : classify c = .pipe)
    (hh : hadTokens s = false) :
    step s c = s := by
  have htok : s.tok = none := by
    unfold hadTokens at hh
    cases htok : s.tok with
    | none => rfl
    | some t => rw [htok] at hh; simp at hh
  unfold step
  rw [h]
  simp only [hh, Bool.false_eq_true, if_false]
  exact flush_cmd_of_none htok

lemma step_semi_had_eq (s : ParseState) (c : Char) (h : classify c = .semi)
    (hh : hadTokens s = true) :
    step s c =
      { curr := ⟨[], false, false⟩, tok := (flush_cmd s).tok,
        acc := (flush_cmd s).acc ++ [(flush_cmd s).curr] } := by
  have hpos := flush_cmd_pos_of_had s hh
  unfold step
  rw [h]
  simp only [hh, if_true]
  unfold flush_process
  simp only [hpos, if_pos]

lemma step_semi_had_spec (s : ParseState) (c : Char) (h : classify c = .semi)
    (hh : hadTokens s = true) :
    (step s c).acc = s.acc ++ [(flush_cmd s).curr] ∧
    hadTokens (step s c) = false := by
  rw [step_semi_had_eq s c h hh]
  refine ⟨by rw [flush_cmd_acc], ?_⟩
  unfold hadTokens
  simp [flush_cmd_tok s]

lemma step_semi_nohad_spec (s : ParseState) (c : Char) (h : classify c = .semi)
    (hh : hadTokens s = false) :
    (step s c).acc = s.acc ∧ hadTokens (step s c) = false := by
  have htok : s.tok = none := by
    unfold hadTokens at hh
    cases htok : s.tok with
    | none => rfl
    | some t => rw [htok] at hh; simp at hh
  unfold step
  rw [h]
  simp only [hh, Bool.false_eq_true, if_false]
  rw [flush_cmd_of_none htok]
  constructor
  · rfl
  · unfold hadTokens
    simp [htok]

lemma step_other_spec (s : ParseState) (c : Char) (h : classify c = .other) :
    (step s c).acc = s.acc ∧ hadTokens (step s c) = true := by
  unfold step
  rw [h]
  cases htok : s.tok with
  | none => exact ⟨rfl, by unfold hadTokens; simp⟩
  | some t => exact ⟨rfl, by unfold hadTokens; simp⟩

/-- Core counting invariant: the number of sealed descriptors plus the
pending one tracks the reference segment counter. -/
lemma parse_loop_count (cs : List Char) : ∀ s : ParseState,
    (parse_loop cs s).acc.length +
      (if hadTokens (parse_loop cs s) then 1 else 0) =
    s.acc.length + countSegs cs (hadTokens s) := by
  induction cs with
  | nil => intro s; simp [parse_loop, countSegs]
  | cons c cs ih =>
    intro s
    have hloop : parse_loop (c :: cs) s = parse_loop cs (step s c) := rfl
    rw [hloop, ih (step s c)]
    rcases classify_cases c with ⟨hc, hw, hsep⟩ | ⟨hc, hsep⟩ | ⟨hc, hsep⟩ |
        ⟨hc, hw, hsep⟩
    · obtain ⟨ha, hh⟩ := step_ws_spec s c hc
      rw [ha, hh]
      simp [countSegs, hsep, hw]
    · by_cases hh : hadTokens s = true
      · obtain ⟨ha, hh2⟩ := step_pipe_had_spec s c hc hh
        rw [ha, hh2, hh]
        simp [countSegs, hsep]
        omega
      · rw [Bool.not_eq_true] at hh
        rw [step_pipe_nohad_spec s c hc hh, hh]
        simp [countSegs, hsep]
    · by_cases hh : hadTokens s = true
      · obtain ⟨ha, hh2⟩ := step_semi_had_spec s c hc hh
        rw [ha, hh2, hh]
        simp [countSegs, hsep]
        omega
      · rw [Bool.not_eq_true] at hh
        obtain ⟨ha, hh2⟩ := step_semi_nohad_spec s c hc hh
        rw [ha, hh2, hh]
        simp [countSegs, hsep]
    · obtain ⟨ha, hh⟩ := step_other_spec s c hc
      rw [ha, hh]
      simp [countSegs, hsep, hw]

lemma finish_length (s : ParseState) :
    (finish s).length = s.acc.length + (if hadTokens s then 1 else 0) := by
  unfold finish
  cases htok : s.tok with
  | none =>
    simp only [htok]
    unfold flush_process
    by_cases hc : 0 < s.curr.tokens.length
    · have hh : hadTokens s = true := by unfold hadTokens; simp [hc]
      simp [hc, hh]
    · have hh : hadTokens s = false := by
        unfold hadTokens
        simp only [htok, Option.isSome_none, Bool.or_false, decide_eq_false_iff_not]
        omega
      simp [hc, hh]
  | some t =>
    have hh : hadTokens s = true := by unfold hadTokens; simp [htok]
    simp only [htok]
    unfold flush_process
    simp [add_token_length_pos s.curr t, hh]

lemma flush_process_accPos (s : ParseState)
    (h : ∀ p ∈ s.acc, 0 < p.tokens.length) :
    ∀ p ∈ (flush_process s).acc, 0 < p.tokens.length := by
  unfold flush_process
  by_cases hc : 0 < s.curr.tokens.length
  · simp only [hc, if_pos]
    intro p hp
    rcases List.mem_append.mp hp with hp | hp
    · exact h p hp
    · rw [List.mem_singleton.mp hp]
      exact hc
  · simp only [hc, if_neg]
    exact h

lemma step_accPos (s : ParseState) (c : Char)
    (h : ∀ p ∈ s.acc, 0 < p.tokens.length) :
    ∀ p ∈ (step s c).acc, 0 < p.tokens.length := by
  rcases classify_cases c with ⟨hc, _, _⟩ | ⟨hc, _⟩ | ⟨hc, _⟩ | ⟨hc, _, _⟩
  · rw [(step_ws_spec s c hc).1]; exact h
  · by_cases hh : hadTokens s = true
    · rw [(step_pipe_had_spec s c hc hh).1]
      intro p hp
      rcases List.mem_append.mp hp with hp | hp
      · exact h p hp
      · rw [List.mem_singleton.mp hp]
        simpa using flush_cmd_pos_of_had s hh
    · rw [Bool.not_eq_true] at hh
      rw [step_pipe_nohad_spec s c hc hh]
      exact h
  · by_cases hh : hadTokens s = true
    · rw [(step_semi_had_spec s c hc hh).1]
      intro p hp
      rcases List.mem_append.mp hp with hp | hp
      · exact h p hp
      · rw [List.mem_singleton.mp hp]
        exact flush_cmd_pos_of_had s hh
    · rw [Bool.not_eq_true] at hh
      rw [(step_semi_nohad_spec s c hc hh).1]
      exact h
  · rw [(step_other_spec s c hc).1]; exact h

lemma parse_loop_accPos (cs : List Char) : ∀ s : ParseState,
    (∀ p ∈ s.acc, 0 < p.tokens.length) →
    ∀ p ∈ (parse_loop cs s).acc, 0 < p.tokens.length := by
  induction cs with
  | nil => intro s h; exact h
  | cons c cs ih => intro s h; exact ih (step s c) (step_accPos s c h)

lemma finish_accPos (s : ParseState)
    (h : ∀ p ∈ s.acc, 0 < p.tokens.length) :
    ∀ p ∈ finish s, 0 < p.tokens.length := by
  unfold finish
  cases htok : s.tok with
  | none =>
    simp only [htok]
    exact flush_process_accPos s h
  | some t =>
    simp only [htok]
    exact flush_process_accPos _ h

lemma postPass_length (l : List Proc) (h : ∀ p ∈ l, 0 < p.tokens.length) :
    (postPass l).length = l.length := by
  unfold postPass
  cases hlast : l.getLast? with
  | none => rfl
  | some last =>
    obtain ⟨ys, rfl⟩ := List.getLast?_eq_some_iff.mp hlast
    have hpos : 0 < last.tokens.length := h last (by simp)
    have hcond : ¬(last.pipe_in = true ∧ last.tokens.length = 0) := by
      rintro ⟨_, h0⟩
      omega
    simp only [hcond, if_neg, if_false]
    by_cases ho : last.pipe_out = true
    · simp [ho, List.dropLast_concat]
    · simp [ho]

lemma postPass_accPos (l : List Proc) (h : ∀ p ∈ l, 0 < p.tokens.length) :
    ∀ p ∈ postPass l, 0 < p.tokens.length := by
  unfold postPass
  cases hlast : l.getLast? with
  | none => exact h
  | some last =>
    obtain ⟨ys, rfl⟩ := List.getLast?_eq_some_iff.mp hlast
    have hpos : 0 < last.tokens.length := h last (by simp)
    have hcond : ¬(last.pipe_in = true ∧ last.tokens.length = 0) := by
      rintro ⟨_, h0⟩
      omega
    simp only [hcond, if_neg, if_false]
    by_cases ho : last.pipe_out = true
    · simp only [ho, if_pos, List.dropLast_concat]
      intro p hp
      rcases List.mem_append.mp hp with hp | hp
      · exact h p (List.mem_append.mpr (Or.inl hp))
      · rw [List.mem_singleton.mp hp]
        exact hpos
    · simp only [ho, if_neg, if_false]
      exact h

lemma segmentsAux_countP (cs : List Char) : ∀ cur : List Char,
    (segmentsAux cs cur).countP isContentSeg =
      countSegs cs (cur.any fun c => !(isWsChar c)) := by
  induction cs with
  | nil =>
    intro cur
    unfold segmentsAux countSegs isContentSeg
    simp [List.countP_singleton]
  | cons c cs ih =>
    intro cur
    unfold segmentsAux countSegs
    by_cases hsep : isSepChar c = true
    · simp only [hsep, if_true, if_pos]
      rw [List.countP_cons, ih []]
      unfold isContentSeg
      simp [Nat.add_comm]
    · rw [Bool.not_eq_true] at hsep
      by_cases hws : isWsChar c = true
      · simp only [hsep, Bool.false_eq_true, if_false, hws, if_true]
        rw [ih (cur ++ [c])]
        congr 1
        simp [hws]
      · rw [Bool.not_eq_true] at hws
        simp only [hsep, hws, Bool.false_eq_true, if_false]
        rw [ih (cur ++ [c])]
        congr 1
        simp [hws]

lemma countSegments_eq_countSegs (cmd : List Char) :
    countSegments cmd = countSegs cmd false := by
  unfold countSegments segments
  rw [segmentsAux_countP]
  rfl

lemma countSegs_all_delim (cs : List Char)
    (h : ∀ c ∈ cs, isWsChar c = true ∨ isSepChar c = true) :
    countSegs cs false = 0 := by
  induction cs with
  | nil => rfl
  | cons c cs ih =>
    have ihall := ih (fun x hx => h x (List.mem_cons_of_mem c hx))
    unfold countSegs
    rcases h c (List.mem_cons_self c cs) with hw | hs
    · by_cases hsep : isSepChar c = true
      · simp [hsep, ihall]
      · rw [Bool.not_eq_true] at hsep
        simp [hsep, hw, ihall]
    · simp [hs, ihall]

-- Flag lemmas for the adjacency invariant.

lemma add_token_pipe_in (p : Proc) (t : List Char) :
    (add_token p t).pipe_in = p.pipe_in := by
  unfold add_token
  split <;> rfl

lemma add_token_pipe_out (p : Proc) (t : List Char) :
    (add_token p t).pipe_out = p.pipe_out := by
  unfold add_token
  split <;> rfl

lemma flush_cmd_curr_pipe_in (s : ParseState) :
    (flush_cmd s).curr.pipe_in = s.curr.pipe_in := by
  cases htok : s.tok with
  | none => rw [flush_cmd_of_none htok]
  | some t => rw [flush_cmd_of_some htok]; exact add_token_pipe_in s.curr t

lemma flush_cmd_curr_pipe_out (s : ParseState) :
    (flush_cmd s).curr.pipe_out = s.curr.pipe_out := by
  cases htok : s.tok with
  | none => rw [flush_cmd_of_none htok]
  | some t => rw [flush_cmd_of_some htok]; exact add_token_pipe_out s.curr t

lemma step_ws_eq (s : ParseState) (c : Char) (h : classify c = .ws) :
    step s c = flush_cmd s := by
  unfold step
  rw [h]

lemma step_semi_nohad_eq (s : ParseState) (c : Char) (h : classify c = .semi)
    (hh : hadTokens s = false) :
    step s c = { s with curr := ⟨[], false, false⟩ } := by
  have htok : s.tok = none := by
    unfold hadTokens at hh
    cases htok : s.tok with
    | none => rfl
    | some t => rw [htok] at hh; simp at hh
  unfold step
  rw [h]
  simp only [hh, Bool.false_eq_true, if_false]
  rw [flush_cmd_of_none htok]

lemma step_other_curr_acc (s : ParseState) (c : Char) (h : classify c = .other) :
    (step s c).curr = s.curr ∧ (step s c).acc = s.acc := by
  unfold step
  rw [h]
  cases htok : s.tok <;> exact ⟨rfl, rfl⟩

lemma chainInv_flush_cmd (s : ParseState) (h : ChainInv s) :
    ChainInv (flush_cmd s) := by
  obtain ⟨h1, h2, h3⟩ := h
  refine ⟨?_, ?_, ?_⟩
  · rw [flush_cmd_acc]; exact h1
  · rw [flush_cmd_curr_pipe_in, flush_cmd_acc]; exact h2
  · rw [flush_cmd_curr_pipe_out]; exact h3

lemma chainInv_step (s : ParseState) (c : Char) (h : ChainInv s) :
    ChainInv (step s c) := by
  rcases classify_cases c with ⟨hc, _, _⟩ | ⟨hc, _⟩ | ⟨hc, _⟩ | ⟨hc, _, _⟩
  · rw [step_ws_eq s c hc]
    exact chainInv_flush_cmd s h
  · by_cases hh : hadTokens s = true
    · rw [step_pipe_had_eq s c hc hh]
      obtain ⟨h1, h2, h3⟩ := chainInv_flush_cmd s h
      refine ⟨?_, ?_, rfl⟩
      · rw [List.chain'_append]
        refine ⟨h1, List.chain'_singleton _, ?_⟩
        intro x hx y hy
        rw [List.head?_cons, Option.mem_some_iff] at hy
        subst hy
        intro hin
        have : (flush_cmd s).curr.pipe_in = true := hin
        have hlast := h2 this
        rw [Option.map_eq_some'] at hlast
        obtain ⟨a, ha, hout⟩ := hlast
        rw [hx] at ha
        injection ha with ha
        subst ha
        exact hout
      · intro _
        rw [List.getLast?_concat]
        rfl
    · rw [Bool.not_eq_true] at hh
      rw [step_pipe_nohad_spec s c hc hh]
      exact h
  · by_cases hh : hadTokens s = true
    · rw [step_semi_had_eq s c hc hh]
      obtain ⟨h1, h2, h3⟩ := chainInv_flush_cmd s h
      refine ⟨?_, ?_, rfl⟩
      · rw [List.chain'_append]
        refine ⟨h1, List.chain'_singleton _, ?_⟩
        intro x hx y hy
        rw [List.head?_cons, Option.mem_some_iff] at hy
        subst hy
        intro hin
        have hlast := h2 hin
        rw [Option.map_eq_some'] at hlast
        obtain ⟨a, ha, hout⟩ := hlast
        rw [hx] at ha
        injection ha with ha
        subst ha
        exact hout
      · intro hfalse
        simp at hfalse
    · rw [Bool.not_eq_true] at hh
      rw [step_semi_nohad_eq s c hc hh]
      obtain ⟨h1, _, _⟩ := h
      exact ⟨h1, by intro hfalse; simp at hfalse, rfl⟩
  · obtain ⟨hcurr, hacc⟩ := step_other_curr_acc s c hc
    obtain ⟨h1, h2, h3⟩ := h
    refine ⟨?_, ?_, ?_⟩
    · rw [hacc]; exact h1
    · rw [hcurr, hacc]; exact h2
    · rw [hcurr]; exact h3

lemma chainInv_parse_loop (cs : List Char) : ∀ s : ParseState,
    ChainInv s → ChainInv (parse_loop cs s) := by
  induction cs with
  | nil => intro s h; exact h
  | cons c cs ih => intro s h; exact ih (step s c) (chainInv_step s c h)

lemma chain_finish (s : ParseState) (h : ChainInv s) :
    List.Chain' pairOK (finish s) := by
  have h' : ChainInv (match s.tok with
      | none => s
      | some t => { s with curr := add_token s.curr t, tok := none }) := by
    cases htok : s.tok with
    | none => exact h
    | some t =>
      have := chainInv_flush_cmd s h
      rwa [flush_cmd_of_some htok] at this
  unfold finish
  obtain ⟨h1, h2, h3⟩ := h'
  cases htok : s.tok with
  | none =>
    simp only [htok] at h1 h2 h3 ⊢
    unfold flush_process
    by_cases hc : 0 < s.curr.tokens.length
    · simp only [hc, if_pos]
      rw [List.chain'_append]
      refine ⟨h1, List.chain'_singleton _, ?_⟩
      intro x hx y hy
      rw [List.head?_cons, Option.mem_some_iff] at hy
      subst hy
      intro hin
      have hlast := h2 hin
      rw [Option.map_eq_some'] at hlast
      obtain ⟨a, ha, hout⟩ := hlast
      rw [hx] at ha
      injection ha with ha
      subst ha
      exact hout
    · simp only [hc, if_neg, if_false]
      exact h1
  | some t =>
    simp only [htok] at h1 h2 h3 ⊢
    unfold flush_process
    by_cases hc : 0 < (add_token s.curr t).tokens.length
    · simp only [hc, if_pos]
      rw [List.chain'_append]
      refine ⟨h1, List.chain'_singleton _, ?_⟩
      intro x hx y hy
      rw [List.head?_cons, Option.mem_some_iff] at hy
      subst hy
      intro hin
      have hlast := h2 hin
      rw [Option.map_eq_some'] at hlast
      obtain ⟨a, ha, hout⟩ := hlast
      rw [hx] at ha
      injection ha with ha
      subst ha
      exact hout
    · simp only [hc, if_neg, if_false]
      exact h1

lemma chain_postPass (l : List Proc) (hl : List.Chain' pairOK l)
    (h : ∀ p ∈ l, 0 < p.tokens.length) :
    List.Chain' pairOK (postPass l) := by
  unfold postPass
  cases hlast : l.getLast? with
  | none => exact hl
  | some last =>
    obtain ⟨ys, rfl⟩ := List.getLast?_eq_some_iff.mp hlast
    have hpos : 0 < last.tokens.length := h last (by simp)
    have hcond : ¬(last.pipe_in = true ∧ last.tokens.length = 0) := by
      rintro ⟨_, h0⟩
      omega
    simp only [hcond, if_neg, if_false]
    by_cases ho : last.pipe_out = true
    · simp only [ho, if_pos, List.dropLast_concat]
      rw [List.chain'_append] at hl ⊢
      obtain ⟨hys, _, hconn⟩ := hl
      refine ⟨hys, List.chain'_singleton _, ?_⟩
      intro x hx y hy
      rw [List.head?_cons, Option.mem_some_iff] at hy
      subst hy
      intro hin
      exact hconn x hx last (by rw [List.head?_cons, Option.mem_some_iff]) hin
    · simp only [ho, if_neg, if_false]
      exact hl

lemma truncP_length_pos (p : Proc) :
    (0 < (truncP p).tokens.length) ↔ (0 < p.tokens.length) := by
  unfold truncP
  simp only [List.length_take]
  omega

lemma add_token_trunc (p : Proc) (t : List Char) :
    add_token (truncP p) t = truncP (add_tokenU p t) := by
  unfold add_token add_tokenU truncP
  simp only [List.length_take]
  by_cases h : p.tokens.length < 25
  · simp only [if_pos (by omega : min 25 p.tokens.length < 25)]
    have h1 : p.tokens.take 25 = p.tokens := List.take_of_length_le (by omega)
    have h2 : (p.tokens ++ [t]).take 25 = p.tokens ++ [t] :=
      List.take_of_length_le (by simp; omega)
    rw [h1, h2]
  · simp only [if_neg (by omega : ¬ min 25 p.tokens.length < 25)]
    have h2 : (p.tokens ++ [t]).take 25 = p.tokens.take 25 := by
      rw [List.take_append_eq_append_take]
      have : 25 - p.tokens.length = 0 := by omega
      rw [this]
      simp
    rw [h2]

lemma hadTokens_trunc (u : ParseState) :
    hadTokens (truncState u) = hadTokens u := by
  unfold hadTokens truncState
  simp only
  rw [Bool.eq_iff_iff]
  simp [truncP_length_pos]

lemma flush_cmd_trunc (u : ParseState) :
    flush_cmd (truncState u) = truncState (flush_cmdU u) := by
  cases htok : u.tok with
  | none =>
    have h1 : (truncState u).tok = none := htok
    rw [flush_cmd_of_none h1]
    unfold flush_cmdU
    rw [htok]
  | some t =>
    have h1 : (truncState u).tok = some t := htok
    rw [flush_cmd_of_some h1]
    unfold flush_cmdU
    rw [htok]
    unfold truncState
    simp only
    rw [add_token_trunc]

lemma flush_process_trunc (u : ParseState) :
    flush_process (truncState u) = truncState (flush_process u) := by
  unfold flush_process
  by_cases h : 0 < u.curr.tokens.length
  · have h' : 0 < (truncState u).curr.tokens.length := (truncP_length_pos u.curr).mpr h
    simp only [truncState] at h' ⊢
    simp only [h, h', if_pos]
    simp [truncState, truncP]
  · have h' : ¬ 0 < (truncState u).curr.tokens.length := by
      simp only [truncState]
      rw [truncP_length_pos u.curr]
      exact h
    simp only [truncState] at h' ⊢
    simp only [h, h', if_neg, if_false]
    simp [truncState, truncP]

lemma step_trunc (u : ParseState) (c : Char) :
    step (truncState u) c = truncState (stepU u c) := by
  unfold step stepU
  cases hc : classify c with
  | ws => exact flush_cmd_trunc u
  | pipe =>
    simp only [hadTokens_trunc u]
    by_cases hh : hadTokens u = true
    · simp only [hh, if_true]
      rw [flush_cmd_trunc u]
      have hpipe : { truncState (flush_cmdU u) with
          curr := { (truncState (flush_cmdU u)).curr with pipe_out := true } } =
          truncState { flush_cmdU u with
            curr := { (flush_cmdU u).curr with pipe_out := true } } := by
        unfold truncState truncP
        simp
      rw [hpipe, flush_process_trunc]
      unfold truncState truncP
      simp
    · rw [Bool.not_eq_true] at hh
      simp only [hh, Bool.false_eq_true, if_false]
      exact flush_cmd_trunc u
  | semi =>
    simp only [hadTokens_trunc u]
    by_cases hh : hadTokens u = true
    · simp only [hh, if_true]
      rw [flush_cmd_trunc u, flush_process_trunc]
    · rw [Bool.not_eq_true] at hh
      simp only [hh, Bool.false_eq_true, if_false]
      rw [flush_cmd_trunc u]
      unfold truncState truncP
      simp
  | other =>
    cases htok : u.tok with
    | none =>
      have h1 : (truncState u).tok = none := htok
      simp only [htok, h1]
      unfold truncState
      simp
    | some t =>
      have h1 : (truncState u).tok = some t := htok
      simp only [htok, h1]
      unfold truncState
      simp

lemma parse_loop_trunc (cs : List Char) : ∀ u : ParseState,
    parse_loop cs (truncState u) = truncState (parse_loopU cs u) := by
  induction cs with
  | nil => intro u; rfl
  | cons c cs ih =>
    intro u
    have h1 : parse_loop (c :: cs) (truncState u) =
        parse_loop cs (step (truncState u) c) := rfl
    rw [h1, step_trunc u c, ih (stepU u c)]
    rfl

lemma finish_trunc (u : ParseState) :
    finish (truncState u) = (finishU u).map truncP := by
  unfold finish finishU
  cases htok : u.tok with
  | none =>
    have h1 : (truncState u).tok = none := htok
    simp only [htok, h1]
    rw [flush_process_trunc]
    rfl
  | some t =>
    have h1 : (truncState u).tok = some t := htok
    simp only [htok, h1]
    have h2 : { truncState u with curr := add_token (truncState u).curr t, tok := none } =
        truncState { u with curr := add_tokenU u.curr t, tok := none } := by
      unfold truncState
      simp only
      rw [add_token_trunc]
    rw [h2, flush_process_trunc]
    rfl

lemma postPass_trunc (l : List Proc) :
    postPass (l.map truncP) = (postPass l).map truncP := by
  unfold postPass
  cases hlast : l.getLast? with
  | none =>
    rw [List.getLast?_eq_none_iff] at hlast
    subst hlast
    rfl
  | some last =>
    have hmap : (l.map truncP).getLast? = some (truncP last) := by
      rw [List.getLast?_map, hlast]
      rfl
    rw [hmap]
    by_cases hc : last.pipe_in = true ∧ last.tokens.length = 0
    · have hc' : (truncP last).pipe_in = true ∧ (truncP last).tokens.length = 0 := by
        unfold truncP
        refine ⟨hc.1, ?_⟩
        simp only [List.length_take]
        omega
      simp only [hc, hc', if_pos]
      exact (List.map_dropLast truncP l).symm
    · have hc' : ¬((truncP last).pipe_in = true ∧ (truncP last).tokens.length = 0) := by
        unfold truncP
        simp only [List.length_take]
        intro h
        exact hc ⟨h.1, by omega⟩
      simp only [hc, hc', if_neg, if_false]
      by_cases ho : last.pipe_out = true
      · have ho' : (truncP last).pipe_out = true := ho
        simp only [ho, ho', if_pos]
        rw [List.map_append, List.map_dropLast]
        rfl
      · have ho' : ¬ (truncP last).pipe_out = true := ho
        simp only [ho, ho', if_neg, if_false]
        simp

lemma finish_pos_init (cmd : List Char) :
    ∀ p ∈ finish (parse_loop cmd initState), 0 < p.tokens.length := by
  apply finish_accPos
  apply parse_loop_accPos
  intro p hp
  simp [initState] at hp

lemma parse_input_length (cmd : List Char) :
    (parse_input cmd).length = countSegs cmd false := by
  unfold parse_input
  rw [postPass_length _ (finish_pos_init cmd), finish_length]
  have hcount := parse_loop_count cmd initState
  have hinit : hadTokens initState = false := by decide
  rw [hinit] at hcount
  simpa [initState] using hcount

lemma parse_input_pos (cmd : List Char) :
    ∀ p ∈ parse_input cmd, 0 < p.tokens.length := by
  unfold parse_input
  exact postPass_accPos _ (finish_pos_init cmd)

lemma chain_parse_input (cmd : List Char) :
    List.Chain' pairOK (parse_input cmd) := by
  have hinv : ChainInv (parse_loop cmd initState) := by
    apply chainInv_parse_loop
    refine ⟨List.chain'_nil, ?_, rfl⟩
    intro h
    simp [initState] at h
  unfold parse_input
  exact chain_postPass _ (chain_finish _ hinv) (finish_pos_init cmd)

lemma postPass_last_out (l : List Proc) (h : ∀ p ∈ l, 0 < p.tokens.length) :
    ((postPass l).getLast?.all fun q => !q.pipe_out) = true := by
  unfold postPass
  cases hlast : l.getLast? with
  | none =>
    rw [List.getLast?_eq_none_iff] at hlast
    subst hlast
    rfl
  | some last =>
    obtain ⟨ys, rfl⟩ := List.getLast?_eq_some_iff.mp hlast
    have hpos : 0 < last.tokens.length := h last (by simp)
    have hcond : ¬(last.pipe_in = true ∧ last.tokens.length = 0) := by
      rintro ⟨_, h0⟩
      omega
    simp only [hcond, if_neg, if_false]
    by_cases ho : last.pipe_out = true
    · simp only [ho, if_pos]
      rw [List.getLast?_concat]
      rfl
    · have ho' : last.pipe_out = false := by
        rw [← Bool.not_eq_true]
        exact ho
      simp [ho', List.getLast?_concat]

lemma stepT_eq_step (s : ParseState) (c : Char) : stepT s c = step s c := rfl

lemma parse_loopT_eq (cs : List Char) : ∀ s : ParseState,
    parse_loopT cs s = parse_loop cs s := by
  induction cs with
  | nil => intro s; rfl
  | cons c cs ih =>
    intro s
    have h1 : parse_loopT (c :: cs) s = parse_loopT cs (stepT s c) := rfl
    rw [h1, stepT_eq_step, ih (step s c)]
    rfl

lemma run_loop_cons (pipeOk forkOk : Nat → Bool) (proc : Proc)
    (rest : List Proc) (st : RunState) :
    run_loop pipeOk forkOk (proc :: rest) st =
      if proc.tokens.head? = none then run_loop pipeOk forkOk rest st
      else if isQuitP proc then (true, st.events ++ st.pids.map Event.reap)
      else if isCdP proc then
        run_loop pipeOk forkOk rest { st with events := st.events ++ [Event.cd] }
      else if isBuiltinP proc then
        run_loop pipeOk forkOk rest { st with events := st.events ++ [Event.builtin] }
      else if proc.pipe_out ∧ pipeOk st.nPipe = false then
        (false, st.events ++ [Event.pipeError])
      else if forkOk (pipeStage proc st).nFork = false then
        (false, (pipeStage proc st).events ++ [Event.forkError] ++
          (pipeStage proc st).pids.map Event.reap)
      else run_loop pipeOk forkOk rest (spawnStage proc (pipeStage proc st)) :=
  rfl

lemma spawn_not_mem_reaps (p : Nat) (l : List Nat) :
    Event.spawn p ∉ l.map Event.reap := by
  simp [List.mem_map]

lemma forkError_not_mem_reaps (l : List Nat) :
    Event.forkError ∉ l.map Event.reap := by
  simp [List.mem_map]

lemma pipeError_not_mem_reaps (l : List Nat) :
    Event.pipeError ∉ l.map Event.reap := by
  simp [List.mem_map]

lemma allReaped_final (st : RunState) (h : InvR st) :
    allSpawnedReapedP (st.events ++ st.pids.map Event.reap) := by
  intro pid hmem
  rcases List.mem_append.mp hmem with hm | hm
  · rcases h.1 pid hm with hr | hr
    · exact List.mem_append.mpr (Or.inl hr)
    · exact List.mem_append.mpr (Or.inr (List.mem_map.mpr ⟨pid, hr, rfl⟩))
  · exact absurd hm (spawn_not_mem_reaps pid st.pids)

lemma invR_of_eq {st st' : RunState} (he : st'.events = st.events)
    (hpids : st'.pids = st.pids) (h : InvR st) : InvR st' := by
  obtain ⟨h1, h2, h3⟩ := h
  refine ⟨?_, by rw [he]; exact h2, by rw [he]; exact h3⟩
  intro p hm
  rw [he] at hm
  rcases h1 p hm with hr | hr
  · left; rw [he]; exact hr
  · right; rw [hpids]; exact hr

lemma invR_push (st : RunState) (e : Event) (h : InvR st)
    (hsp : ∀ p : Nat, e ≠ Event.spawn p)
    (hf : e ≠ Event.forkError) (hpe : e ≠ Event.pipeError) :
    InvR { st with events := st.events ++ [e] } := by
  obtain ⟨h1, h2, h3⟩ := h
  refine ⟨?_, ?_, ?_⟩
  · intro p hm
    rcases List.mem_append.mp hm with hm | hm
    · rcases h1 p hm with hr | hr
      · exact Or.inl (List.mem_append.mpr (Or.inl hr))
      · exact Or.inr hr
    · rw [List.mem_singleton] at hm
      exact absurd hm.symm (hsp p)
  · intro hm
    rcases List.mem_append.mp hm with hm | hm
    · exact h2 hm
    · rw [List.mem_singleton] at hm
      exact hf hm.symm
  · intro hm
    rcases List.mem_append.mp hm with hm | hm
    · exact h3 hm
    · rw [List.mem_singleton] at hm
      exact hpe hm.symm

lemma invR_pipeStage (proc : Proc) (st : RunState) (h : InvR st) :
    InvR (pipeStage proc st) := by
  unfold pipeStage
  by_cases hp : proc.pipe_out = true
  · simp only [hp, if_pos]
    exact invR_of_eq rfl rfl
      (invR_push st Event.pipeCreated h (by intro p; simp) (by simp) (by simp))
  · simp only [hp, Bool.false_eq_true, if_false]
    exact h

lemma invR_spawnStage (proc : Proc) (st1 : RunState) (h : InvR st1) :
    InvR (spawnStage proc st1) := by
  unfold spawnStage
  have hst2 : InvR { st1 with
      nFork := st1.nFork + 1
      events := st1.events ++ [Event.spawn st1.nFork]
      pids := st1.pids ++ [st1.nFork] } := by
    obtain ⟨h1, h2, h3⟩ := h
    refine ⟨?_, ?_, ?_⟩
    · intro p hm
      rcases List.mem_append.mp hm with hm | hm
      · rcases h1 p hm with hr | hr
        · exact Or.inl (List.mem_append.mpr (Or.inl hr))
        · exact Or.inr (List.mem_append.mpr (Or.inl hr))
      · rw [List.mem_singleton] at hm
        injection hm with hm
        right
        rw [hm]
        exact List.mem_append.mpr (Or.inr (List.mem_singleton.mpr rfl))
    · intro hm
      rcases List.mem_append.mp hm with hm | hm
      · exact h2 hm
      · rw [List.mem_singleton] at hm
        exact Event.noConfusion hm
    · intro hm
      rcases List.mem_append.mp hm with hm | hm
      · exact h3 hm
      · rw [List.mem_singleton] at hm
        exact Event.noConfusion hm
  by_cases hp : proc.pipe_out = true
  · simp only [hp, if_pos]
    exact invR_of_eq rfl rfl hst2
  · simp only [hp, Bool.false_eq_true, if_false]
    obtain ⟨h1, h2, h3⟩ := hst2
    refine ⟨?_, ?_, ?_⟩
    · intro p hm
      rcases List.mem_append.mp hm with hm | hm
      · rcases h1 p hm with hr | hr
        · exact Or.inl (List.mem_append.mpr (Or.inl hr))
        · exact Or.inl (List.mem_append.mpr
            (Or.inr (List.mem_map.mpr ⟨p, hr, rfl⟩)))
      · exact absurd hm (spawn_not_mem_reaps p _)
    · intro hm
      rcases List.mem_append.mp hm with hm | hm
      · exact h2 hm
      · exact forkError_not_mem_reaps _ hm
    · intro hm
      rcases List.mem_append.mp hm with hm | hm
      · exact h3 hm
      · exact pipeError_not_mem_reaps _ hm

lemma invR_push_cd (st : RunState) (h : InvR st) :
    InvR { st with events := st.events ++ [Event.cd] } :=
  invR_push st Event.cd h (by intro p; simp) (by simp) (by simp)

lemma invR_push_builtin (st : RunState) (h : InvR st) :
    InvR { st with events := st.events ++ [Event.builtin] } :=
  invR_push st Event.builtin h (by intro p; simp) (by simp) (by simp)

/-- Under failure-free oracles, every execution path of the loop
reaps every child it spawned. -/
lemma run_loop_reaps (procs : List Proc) : ∀ st : RunState, InvR st →
    allSpawnedReapedP (run_loop (fun _ => true) (fun _ => true) procs st).2 := by
  induction procs with
  | nil => intro st h; exact allReaped_final st h
  | cons proc rest ih =>
    intro st h
    rw [run_loop_cons]
    by_cases h1 : proc.tokens.head? = none
    · rw [if_pos h1]
      exact ih st h
    · rw [if_neg h1]
      by_cases h2 : isQuitP proc = true
      · rw [if_pos h2]
        exact allReaped_final st h
      · rw [if_neg h2]
        by_cases h3 : isCdP proc = true
        · rw [if_pos h3]
          exact ih _ (invR_push_cd st h)
        · rw [if_neg h3]
          by_cases h4 : isBuiltinP proc = true
          · rw [if_pos h4]
            exact ih _ (invR_push_builtin st h)
          · rw [if_neg h4]
            rw [if_neg (by simp : ¬(proc.pipe_out = true ∧
              (fun _ : Nat => true) st.nPipe = false))]
            rw [if_neg (by simp : ¬((fun _ : Nat => true)
              (pipeStage proc st).nFork = false))]
            exact ih _ (invR_spawnStage proc _ (invR_pipeStage proc st h))

/-- A sequence with no quit descriptor makes the loop return false on
every path, whatever the oracles decide. -/
lemma run_loop_no_quit (pipeOk forkOk : Nat → Bool) (procs : List Proc) :
    ∀ st : RunState, (∀ p ∈ procs, isQuitP p = false) →
    (run_loop pipeOk forkOk procs st).1 = false := by
  induction procs with
  | nil => intro st _; rfl
  | cons proc rest ih =>
    intro st hall
    have hrest : ∀ p ∈ rest, isQuitP p = false :=
      fun p hp => hall p (List.mem_cons_of_mem proc hp)
    have hq : isQuitP proc = false := hall proc (List.mem_cons_self proc rest)
    rw [run_loop_cons]
    by_cases h1 : proc.tokens.head? = none
    · rw [if_pos h1]; exact ih st hrest
    · rw [if_neg h1, if_neg (by rw [hq]; exact Bool.false_ne_true)]
      by_cases h3 : isCdP proc = true
      · rw [if_pos h3]; exact ih _ hrest
      · rw [if_neg h3]
        by_cases h4 : isBuiltinP proc = true
        · rw [if_pos h4]; exact ih _ hrest
        · rw [if_neg h4]
          by_cases h5 : proc.pipe_out = true ∧ pipeOk st.nPipe = false
          · rw [if_pos h5]
          · rw [if_neg h5]
            by_cases h6 : forkOk (pipeStage proc st).nFork = false
            · rw [if_pos h6]
            · rw [if_neg h6]; exact ih _ hrest

/-- Failure semantics of the loop: a fork failure returns false with
every spawned child reaped; a pipe failure returns false. -/
lemma run_loop_failure (pipeOk forkOk : Nat → Bool) (procs : List Proc) :
    ∀ st : RunState, InvR st →
    (Event.forkError ∈ (run_loop pipeOk forkOk procs st).2 →
      (run_loop pipeOk forkOk procs st).1 = false ∧
      allSpawnedReapedP (run_loop pipeOk forkOk procs st).2) ∧
    (Event.pipeError ∈ (run_loop pipeOk forkOk procs st).2 →
      (run_loop pipeOk forkOk procs st).1 = false) := by
  induction procs with
  | nil =>
    intro st h
    constructor
    · intro hmem
      rcases List.mem_append.mp hmem with hm | hm
      · exact absurd hm h.2.1
      · exact absurd hm (forkError_not_mem_reaps _)
    · intro _; rfl
  | cons proc rest ih =>
    intro st h
    rw [run_loop_cons]
    by_cases h1 : proc.tokens.head? = none
    · rw [if_pos h1]; exact ih st h
    · rw [if_neg h1]
      by_cases h2 : isQuitP proc = true
      · rw [if_pos h2]
        constructor
        · intro hmem
          rcases List.mem_append.mp hmem with hm | hm
          · exact absurd hm h.2.1
          · exact absurd hm (forkError_not_mem_reaps _)
        · intro hmem
          rcases List.mem_append.mp hmem with hm | hm
          · exact absurd hm h.2.2
          · exact absurd hm (pipeError_not_mem_reaps _)
      · rw [if_neg h2]
        by_cases h3 : isCdP proc = true
        · rw [if_pos h3]; exact ih _ (invR_push_cd st h)
        · rw [if_neg h3]
          by_cases h4 : isBuiltinP proc = true
          · rw [if_pos h4]; exact ih _ (invR_push_builtin st h)
          · rw [if_neg h4]
            by_cases h5 : proc.pipe_out = true ∧ pipeOk st.nPipe = false
            · rw [if_pos h5]
              constructor
              · intro hmem
                rcases List.mem_append.mp hmem with hm | hm
                · exact absurd hm h.2.1
                · rw [List.mem_singleton] at hm
                  exact absurd hm (by simp)
              · intro _; rfl
            · rw [if_neg h5]
              by_cases h6 : forkOk (pipeStage proc st).nFork = false
              · rw [if_pos h6]
                have hinv1 := invR_pipeStage proc st h
                constructor
                · intro _
                  refine ⟨rfl, ?_⟩
                  intro p hmem
                  have hm : Event.spawn p ∈ (pipeStage proc st).events := by
                    rcases List.mem_append.mp hmem with hm | hm
                    · rcases List.mem_append.mp hm with hm | hm
                      · exact hm
                      · rw [List.mem_singleton] at hm
                        exact absurd hm (by simp)
                    · exact absurd hm (spawn_not_mem_reaps p _)
                  rcases hinv1.1 p hm with hr | hr
                  · exact List.mem_append.mpr
                      (Or.inl (List.mem_append.mpr (Or.inl hr)))
                  · exact List.mem_append.mpr
                      (Or.inr (List.mem_map.mpr ⟨p, hr, rfl⟩))
                · intro _; rfl
              · rw [if_neg h6]
                exact ih _ (invR_spawnStage proc _ (invR_pipeStage proc st h))

/-- The loop stops at the first quit descriptor: descriptors after it
are never examined, so the run equals the run of the truncated
sequence. -/
lemma run_loop_take (pipeOk forkOk : Nat → Bool) : ∀ (procs : List Proc)
    (k : Nat) (st : RunState) (hk : k < procs.length),
    isQuitP (procs.get ⟨k, hk⟩) = true →
    (∀ (j : Nat) (hj : j < k), isQuitP (procs.get ⟨j, by omega⟩) = false) →
    run_loop pipeOk forkOk procs st =
      run_loop pipeOk forkOk (procs.take (k + 1)) st := by
  intro procs
  induction procs with
  | nil => intro k st hk; simp at hk
  | cons proc rest ih =>
    intro k st hk hq hb
    cases k with
    | zero =>
      have hqp : isQuitP proc = true := hq
      have hnn : ¬ proc.tokens.head? = none := by
        unfold isQuitP at hqp
        cases hh : proc.tokens.head? with
        | none => rw [hh] at hqp; simp at hqp
        | some t => simp
      have htake : (proc :: rest).take 1 = [proc] := rfl
      rw [htake, run_loop_cons, run_loop_cons,
        if_neg hnn, if_neg hnn, if_pos hqp, if_pos hqp]
    | succ j =>
      have hklt : j < rest.length := by
        simp only [List.length_cons] at hk
        omega
      have hq' : isQuitP (rest.get ⟨j, hklt⟩) = true := hq
      have hb' : ∀ (i : Nat) (hi : i < j),
          isQuitP (rest.get ⟨i, by omega⟩) = false :=
        fun i hi => hb (i + 1) (by omega)
      have hp0 : isQuitP proc = false := hb 0 (by omega)
      have hq2 : ¬ (isQuitP proc = true) := by
        rw [hp0]
        exact Bool.false_ne_true
      have htake : (proc :: rest).take (j + 1 + 1) = proc :: rest.take (j + 1) := rfl
      rw [htake, run_loop_cons, run_loop_cons]
      by_cases h1 : proc.tokens.head? = none
      · rw [if_pos h1, if_pos h1]
        exact ih j st hklt hq' hb'
      · rw [if_neg h1, if_neg h1, if_neg hq2, if_neg hq2]
        by_cases h3 : isCdP proc = true
        · rw [if_pos h3, if_pos h3]
          exact ih j _ hklt hq' hb'
        · rw [if_neg h3, if_neg h3]
          by_cases h4 : isBuiltinP proc = true
          · rw [if_pos h4, if_pos h4]
            exact ih j _ hklt hq' hb'
          · rw [if_neg h4, if_neg h4]
            by_cases h5 : proc.pipe_out = true ∧ pipeOk st.nPipe = false
            · rw [if_pos h5, if_pos h5]
            · rw [if_neg h5, if_neg h5]
              by_cases h6 : forkOk (pipeStage proc st).nFork = false
              · rw [if_pos h6, if_pos h6]
              · rw [if_neg h6, if_neg h6]
                exact ih j _ hklt hq' hb'

/-- Under failure-free oracles, a sequence whose first quit
descriptor exists makes the loop return true. -/
lemma run_loop_quit_true : ∀ (procs : List Proc) (k : Nat) (st : RunState)
    (hk : k < procs.length), isQuitP (procs.get ⟨k, hk⟩) = true →
    (∀ (j : Nat) (hj : j < k), isQuitP (procs.get ⟨j, by omega⟩) = false) →
    (run_loop (fun _ => true) (fun _ => true) procs st).1 = true := by
  intro procs
  induction procs with
  | nil => intro k st hk; simp at hk
  | cons proc rest ih =>
    intro k st hk hq hb
    cases k with
    | zero =>
      have hqp : isQuitP proc = true := hq
      have hnn : ¬ proc.tokens.head? = none := by
        unfold isQuitP at hqp
        cases hh : proc.tokens.head? with
        | none => rw [hh] at hqp; simp at hqp
        | some t => simp
      rw [run_loop_cons, if_neg hnn, if_pos hqp]
    | succ j =>
      have hklt : j < rest.length := by
        simp only [List.length_cons] at hk
        omega
      have hq' : isQuitP (rest.get ⟨j, hklt⟩) = true := hq
      have hb' : ∀ (i : Nat) (hi : i < j),
          isQuitP (rest.get ⟨i, by omega⟩) = false :=
        fun i hi => hb (i + 1) (by omega)
      have hp0 : isQuitP proc = false := hb 0 (by omega)
      have hq2 : ¬ (isQuitP proc = true) := by
        rw [hp0]
        exact Bool.false_ne_true
      rw [run_loop_cons]
      by_cases h1 : proc.tokens.head? = none
      · rw [if_pos h1]
        exact ih j st hklt hq' hb'
      · rw [if_neg h1, if_neg hq2]
        by_cases h3 : isCdP proc = true
        · rw [if_pos h3]
          exact ih j _ hklt hq' hb'
        · rw [if_neg h3]
          by_cases h4 : isBuiltinP proc = true
          · rw [if_pos h4]
            exact ih j _ hklt hq' hb'
          · rw [if_neg h4]
            rw [if_neg (by simp : ¬(proc.pipe_out = true ∧
              (fun _ : Nat => true) st.nPipe = false))]
            rw [if_neg (by simp : ¬((fun _ : Nat => true)
              (pipeStage proc st).nFork = false))]
            exact ih j _ hklt hq' hb'

lemma invR_initRun : InvR initRun := by
  refine ⟨?_, ?_, ?_⟩
  · intro p hm
    simp [initRun] at hm
  · simp [initRun]
  · simp [initRun]

/-- C1 counterexample: on the input "a|;b" the parser seals descriptor
0 with writes_to_successor = true while descriptor 1 has
reads_from_predecessor = false, so the claimed iff between adjacent
flags is false. -/
theorem C1_counterexample :
    ¬ (∀ (i : ℕ) (h : i + 1 < (parse_input ['a', '|', ';', 'b']).length),
        (((parse_input ['a', '|', ';', 'b']).get ⟨i, by omega⟩).pipe_out = true ↔
         ((parse_input ['a', '|', ';', 'b']).get ⟨i + 1, h⟩).pipe_in = true)) :=
  fun h => absurd (h 0 (by decide)) (by decide)

/-- C1 (amended): for every adjacent pair of descriptors in a sealed
sequence, if reads_from_predecessor is true on descriptor i+1 then
writes_to_successor is true on descriptor i; the converse direction
fails (see the counterexample). -/
theorem C1_pair_flags (cmd : List Char) (i : ℕ)
    (h : i + 1 < (parse_input cmd).length)
    (hin : ((parse_input cmd).get ⟨i + 1, h⟩).pipe_in = true) :
    ((parse_input cmd).get ⟨i, by omega⟩).pipe_out = true := by
  have hchain := chain_parse_input cmd
  rw [List.chain'_iff_get] at hchain
  exact hchain i (by omega) hin

/-- Witness for C1_pair_flags at the input "a|b". -/
theorem C1_pair_flags_witness :
    ((parse_input ['a', '|', 'b']).get ⟨0, by decide⟩).pipe_out = true :=
  C1_pair_flags ['a', '|', 'b'] 0 (by decide) (by decide)

set_option maxRecDepth 20000 in
/-- C2: on a command whose segment holds exactly 25 tokens (the full
cap), the sealed descriptor has tok_index = 25, so flush_process's
store of the trailing null entry, cmdTokens[tok_index], lands at index
25 — one past the end of the 25-entry array char *cmdTokens[25], out
of bounds, contradicting the claim that the store is always in
bounds. -/
theorem C2_null_store_out_of_bounds :
    (parse_input ((List.replicate 24 ['a', ' ']).flatten ++ ['a'])).map nullStoreIndex
      = [25] ∧
    ¬ (25 < cmdTokensCapacity) := by
  constructor
  · decide
  · decide

/-- C5: the number of sealed descriptors equals the number of
non-empty command segments after splitting on ';' and '|' jointly; no
sealed descriptor has zero tokens; and an input of only whitespace and
separators parses to the empty sequence. -/
theorem C5_segment_count (cmd : List Char) :
    (parse_input cmd).length = countSegments cmd ∧
    (∀ p ∈ parse_input cmd, p.tokens.length ≠ 0) ∧
    ((∀ c ∈ cmd, isWsChar c = true ∨ isSepChar c = true) → parse_input cmd = []) := by
  refine ⟨?_, ?_, ?_⟩
  · rw [parse_input_length, countSegments_eq_countSegs]
  · intro p hp
    have := parse_input_pos cmd p hp
    omega
  · intro hall
    have h0 : (parse_input cmd).length = 0 := by
      rw [parse_input_length, countSegs_all_delim cmd hall]
    exact List.length_eq_zero.mp h0

/-- Witness for C5_segment_count: concrete instances of all three
conjuncts. -/
theorem C5_segment_count_witness :
    (parse_input ['l', 's', ';', ';', 'p', 'w', 'd']).length =
      countSegments ['l', 's', ';', ';', 'p', 'w', 'd'] ∧
    parse_input [';', '|', ' '] = [] :=
  ⟨(C5_segment_count ['l', 's', ';', ';', 'p', 'w', 'd']).1,
   (C5_segment_count [';', '|', ' ']).2.2 (by decide)⟩

/-- C6: a trailing pipe produces no write obligation: the last
descriptor of every sealed sequence has writes_to_successor = false,
and parsing "echo hi|" yields exactly one descriptor with tokens
["echo","hi"] and both flags false. -/
theorem C6_trailing_pipe :
    (∀ cmd : List Char,
      ((parse_input cmd).getLast?.all fun q => !q.pipe_out) = true) ∧
    parse_input ['e', 'c', 'h', 'o', ' ', 'h', 'i', '|'] =
      [⟨[['e', 'c', 'h', 'o'], ['h', 'i']], false, false⟩] := by
  constructor
  · intro cmd
    unfold parse_input
    exact postPass_last_out _ (finish_pos_init cmd)
  · decide

/-- C7: the token cap: the parser is exactly the uncapped parser with
every descriptor's token list truncated to its first 25 tokens — so
the first 25 tokens of a segment are stored in order, tokens beyond
the 25th are silently dropped, and neither the flags nor any other
descriptor is affected. -/
theorem C7_token_cap (cmd : List Char) :
    parse_input cmd = (parse_inputU cmd).map truncP ∧
    ∀ p ∈ parse_input cmd, p.tokens.length ≤ 25 := by
  have hmain : parse_input cmd = (parse_inputU cmd).map truncP := by
    unfold parse_input parse_inputU
    calc postPass (finish (parse_loop cmd initState))
        = postPass (finish (parse_loop cmd (truncState initState))) := rfl
      _ = postPass (finish (truncState (parse_loopU cmd initState))) := by
            rw [parse_loop_trunc]
      _ = postPass ((finishU (parse_loopU cmd initState)).map truncP) := by
            rw [finish_trunc]
      _ = (postPass (finishU (parse_loopU cmd initState))).map truncP :=
            postPass_trunc _
  refine ⟨hmain, ?_⟩
  intro p hp
  rw [hmain] at hp
  obtain ⟨q, _, rfl⟩ := List.mem_map.mp hp
  unfold truncP
  simp only [List.length_take]
  omega

/-- C3 counterexample: pipeline "a|b|c" where the second pipe(2) call
fails: child 0 has been spawned for "a", the pipe failure for "b"
returns false at once, and no reap of child 0 ever appears in the
trace — contradicting the claim that every already-spawned child is
reaped before returning. -/
theorem C3_counterexample :
    (run_commands
        [⟨[['a']], false, true⟩, ⟨[['b']], true, true⟩, ⟨[['c']], true, false⟩]
        (fun n => decide (n = 0)) (fun _ => true)).1 = false ∧
    Event.spawn 0 ∈ (run_commands
        [⟨[['a']], false, true⟩, ⟨[['b']], true, true⟩, ⟨[['c']], true, false⟩]
        (fun n => decide (n = 0)) (fun _ => true)).2 ∧
    Event.reap 0 ∉ (run_commands
        [⟨[['a']], false, true⟩, ⟨[['b']], true, true⟩, ⟨[['c']], true, false⟩]
        (fun n => decide (n = 0)) (fun _ => true)).2 := by
  decide

/-- C3 (amended): a fork failure is reported, aborts the rest of the
sequence with run_commands returning false (not a quit), and every
already-spawned child is reaped before returning; a pipe-creation
failure is reported and returns false without terminating the
interpreter, but the children already spawned for the current
pipeline segment are not reaped before returning. -/
theorem C3_failure_semantics (procs : List Proc) (pipeOk forkOk : Nat → Bool) :
    (Event.forkError ∈ (run_commands procs pipeOk forkOk).2 →
      (run_commands procs pipeOk forkOk).1 = false ∧
      allSpawnedReapedP (run_commands procs pipeOk forkOk).2) ∧
    (Event.pipeError ∈ (run_commands procs pipeOk forkOk).2 →
      (run_commands procs pipeOk forkOk).1 = false) := by
  unfold run_commands
  by_cases he : procs.isEmpty = true
  · rw [if_pos he]
    constructor
    · intro hm
      simp at hm
    · intro hm
      simp at hm
  · rw [if_neg he]
    exact run_loop_failure pipeOk forkOk procs initRun invR_initRun

/-- Witness for C3_failure_semantics: a run whose single fork fails
returns false with all spawned children reaped, and a run whose pipe
creation fails returns false. -/
theorem C3_failure_semantics_witness :
    ((run_commands [⟨[['l', 's']], false, false⟩]
        (fun _ => true) (fun _ => false)).1 = false ∧
      allSpawnedReapedP (run_commands [⟨[['l', 's']], false, false⟩]
        (fun _ => true) (fun _ => false)).2) ∧
    (run_commands [⟨[['l', 's']], false, true⟩]
        (fun _ => false) (fun _ => true)).1 = false := by
  refine ⟨?_, ?_⟩
  · exact (C3_failure_semantics [⟨[['l', 's']], false, false⟩]
      (fun _ => true) (fun _ => false)).1 (by decide)
  · exact (C3_failure_semantics [⟨[['l', 's']], false, true⟩]
      (fun _ => false) (fun _ => true)).2 (by decide)

/-- C4: quit semantics of run_commands: a sequence without a quit
descriptor returns false (under any oracle outcomes); execution stops
at the first quit descriptor, never examining later descriptors (the
run equals the run of the sequence truncated right after the quit);
and under failure-free OS calls a sequence with a quit descriptor
returns true with every already-spawned child reaped. -/
theorem C4_quit_semantics :
    (∀ (procs : List Proc) (pipeOk forkOk : Nat → Bool),
      (∀ p ∈ procs, isQuitP p = false) →
      (run_commands procs pipeOk forkOk).1 = false) ∧
    (∀ (procs : List Proc) (pipeOk forkOk : Nat → Bool) (k : Nat)
        (hk : k < procs.length),
      isQuitP (procs.get ⟨k, hk⟩) = true →
      (∀ (j : Nat) (hj : j < k), isQuitP (procs.get ⟨j, by omega⟩) = false) →
      run_commands procs pipeOk forkOk =
        run_commands (procs.take (k + 1)) pipeOk forkOk) ∧
    (∀ (procs : List Proc) (k : Nat) (hk : k < procs.length),
      isQuitP (procs.get ⟨k, hk⟩) = true →
      (∀ (j : Nat) (hj : j < k), isQuitP (procs.get ⟨j, by omega⟩) = false) →
      (run_commands procs (fun _ => true) (fun _ => true)).1 = true ∧
      allSpawnedReapedP
        (run_commands procs (fun _ => true) (fun _ => true)).2) := by
  refine ⟨?_, ?_, ?_⟩
  · intro procs pipeOk forkOk hall
    unfold run_commands
    by_cases he : procs.isEmpty = true
    · rw [if_pos he]
    · rw [if_neg he]
      exact run_loop_no_quit pipeOk forkOk procs initRun hall
  · intro procs pipeOk forkOk k hk hq hb
    have hne : ¬ procs.isEmpty = true := by
      rw [List.isEmpty_iff]
      intro h
      subst h
      simp at hk
    have hne2 : ¬ (procs.take (k + 1)).isEmpty = true := by
      rw [List.isEmpty_iff]
      intro h
      have hlen := congrArg List.length h
      simp only [List.length_take, List.length_nil] at hlen
      omega
    unfold run_commands
    rw [if_neg hne, if_neg hne2]
    exact run_loop_take pipeOk forkOk procs k initRun hk hq hb
  · intro procs k hk hq hb
    have hne : ¬ procs.isEmpty = true := by
      rw [List.isEmpty_iff]
      intro h
      subst h
      simp at hk
    unfold run_commands
    rw [if_neg hne]
    exact ⟨run_loop_quit_true procs k initRun hk hq hb,
      run_loop_reaps procs initRun invR_initRun⟩

/-- Witness for C4_quit_semantics: a quit-free run returns false; a
run with quit first never looks past it; "ls; quit" returns true. -/
theorem C4_quit_semantics_witness :
    (run_commands [⟨[['l', 's']], false, false⟩]
        (fun _ => true) (fun _ => true)).1 = false ∧
    run_commands [⟨[['q', 'u', 'i', 't']], false, false⟩,
        ⟨[['l', 's']], false, false⟩] (fun _ => true) (fun _ => true) =
      run_commands [⟨[['q', 'u', 'i', 't']], false, false⟩]
        (fun _ => true) (fun _ => true) ∧
    (run_commands [⟨[['l', 's']], false, false⟩,
        ⟨[['q', 'u', 'i', 't']], false, false⟩]
        (fun _ => true) (fun _ => true)).1 = true := by
  refine ⟨?_, ?_, ?_⟩
  · exact C4_quit_semantics.1 _ _ _ (by decide)
  · exact C4_quit_semantics.2.1
      [⟨[['q', 'u', 'i', 't']], false, false⟩, ⟨[['l', 's']], false, false⟩]
      (fun _ => true) (fun _ => true) 0 (by decide) (by decide)
      (by intro j hj; omega)
  · exact (C4_quit_semantics.2.2
      [⟨[['l', 's']], false, false⟩, ⟨[['q', 'u', 'i', 't']], false, false⟩]
      1 (by decide) (by decide)
      (by intro j hj
          have hj0 : j = 0 := by omega
          subst hj0
          rfl)).1

/-- C9: the two parser implementations (Shell::parse_input in
shell.cpp and the free parse_input in tsh.cpp) produce identical
descriptor sequences on every input line. -/
theorem C9_parsers_equivalent (cmd : List Char) :
    parse_inputT cmd = parse_input cmd := by
  unfold parse_inputT parse_input
  rw [parse_loopT_eq]
  rfl

/-- C8: frame property of the remote-storage operations: cput, cget,
crm and cls leave the session handle exactly as they found it on
every return path — success, usage error, not-connected error, and
every transfer-error path. -/
theorem C8_remote_handle_frame :
    (∀ (fd : Int) (tokIndex : Nat) (env : CputEnv),
      (handleCput fd tokIndex env).1 = fd) ∧
    (∀ (fd : Int) (tokIndex : Nat) (env : CgetEnv),
      (handleCget fd tokIndex env).1 = fd) ∧
    (∀ (fd : Int) (tokIndex : Nat) (env : CrmEnv),
      (handleCrm fd tokIndex env).1 = fd) ∧
    (∀ (fd : Int) (env : ClsEnv), (handleCls fd env).1 = fd) := by
  refine ⟨?_, ?_, ?_, ?_⟩
  · intro fd tokIndex env
    unfold handleCput
    repeat' split
    all_goals rfl
  · intro fd tokIndex env
    unfold handleCget
    dsimp only []
    repeat' split
    all_goals rfl
  · intro fd tokIndex env
    unfold handleCrm
    repeat' split
    all_goals rfl
  · intro fd env
    unfold handleCls
    dsimp only []
    repeat' split
    all_goals rfl

/-- C10: cd with no argument, or with the single argument "~", goes
to $HOME: if HOME is unset an error is reported and the working
directory is unchanged; if HOME is set (and the directory is
enterable) the working directory becomes $HOME. -/
theorem C10_cd_home (tokIndex : Nat) (arg1 : List Char)
    (home : Option (List Char)) (chdirOk : List Char → Bool)
    (cwd : List Char) (hsel : tokIndex ≤ 1 ∨ arg1 = ['~']) :
    (home = none →
      handle_cd tokIndex arg1 home chdirOk cwd = (cwd, true)) ∧
    (∀ h : List Char, home = some h → chdirOk h = true →
      handle_cd tokIndex arg1 home chdirOk cwd = (h, false)) := by
  unfold handle_cd
  by_cases ht : 1 < tokIndex
  · have harg : arg1 = ['~'] := by
      rcases hsel with h | h
      · omega
      · exact h
    simp only [ht, if_pos, harg, if_true]
    constructor
    · intro hh
      subst hh
      simp
    · intro h hh hok
      subst hh
      simp [hok]
  · simp only [ht, if_neg, if_false]
    constructor
    · intro hh
      subst hh
      simp
    · intro h hh hok
      subst hh
      simp [hok]

/-- Witness for C10_cd_home: cd with no argument and unset HOME
reports an error leaving the directory alone; cd "~" with HOME set
moves to HOME. -/
theorem C10_cd_home_witness :
    handle_cd 1 [] none (fun _ => true) ['/', 'x'] = (['/', 'x'], true) ∧
    handle_cd 2 ['~'] (some ['/', 'h']) (fun _ => true) ['/', 'x'] =
      (['/', 'h'], false) :=
  ⟨(C10_cd_home 1 [] none (fun _ => true) ['/', 'x']
      (Or.inl (by omega))).1 rfl,
   (C10_cd_home 2 ['~'] (some ['/', 'h']) (fun _ => true) ['/', 'x']
      (Or.inr rfl)).2 ['/', 'h'] rfl rfl⟩

end DkShell
